import Mathlib

set_option maxRecDepth 100000

/-!
# Verification of the LCD system monitor (`sysmon_serial.py`)

A shallow embedding of the monitor's core:

* Python `float` values are modelled as exact rationals (`ℚ`);
  Python's `int(x)` truncates toward zero (`pyInt`), and Python's
  `round(x, n)` rounds half to even at `n` decimal places (`pyRound`).
* Python strings are modelled as Lean `String`s; `str(i)` for an integer
  is `Int.repr` / `Nat.repr`, and `s.rjust(w, c)` is `rjust`.
* The fixed-width formatter `format_float_as_string`, the five frame
  builders, and the transmission loop of `main` are translated
  definition by definition from `src/sysmon_serial.py`.
-/

/-! ## Python primitives -/

/-- Python `int(x)`: truncation of a real number toward zero. -/
def pyInt (q : ℚ) : ℤ :=
  if 0 ≤ q then ⌊q⌋ else -⌊-q⌋

/-- Round a rational to the nearest integer, ties to even
(the rounding mode of Python's builtin `round`). -/
def roundHalfEven (q : ℚ) : ℤ :=
  let f : ℤ := ⌊q⌋
  let r : ℚ := q - f
  if r < 1/2 then f
  else if 1/2 < r then f + 1
  else if f % 2 = 0 then f else f + 1

/-- Fuel-bounded binary logarithm on naturals: counts how often `n` can
be halved before reaching `0` or `1`.  Fuel `n` is always sufficient. -/
def log2fuel : Nat → Nat → Nat
  | 0, _ => 0
  | fuel + 1, n => if n ≤ 1 then 0 else log2fuel fuel (n / 2) + 1

/-- Binary logarithm: for `1 ≤ n`, `2 ^ log2N n ≤ n < 2 ^ (log2N n + 1)`. -/
def log2N (n : Nat) : Nat := log2fuel n n

/-- The power `2 ^ k` as a rational, for an integer exponent. -/
def qpow2 (k : ℤ) : ℚ :=
  if 0 ≤ k then ((2 : ℚ) ^ k.toNat) else 1 / (2 : ℚ) ^ (-k).toNat

/-- For a positive rational `s`, an exponent `e` with `2 ^ e ≤ s`
(and `s < 2 ^ (e + 1)`): the binade of `s`. -/
def ratLog2 (s : ℚ) : ℤ :=
  let e0 : ℤ := (log2N s.num.toNat : ℤ) - (log2N s.den : ℤ)
  if qpow2 e0 ≤ s then e0 else e0 - 1

/-- IEEE-754 binary64 rounding: the nearest double (53-bit significand,
ties to even) to a real number.  Normal range only — no overflow or
subnormal handling, which the program's values never reach. -/
def fl64 (q : ℚ) : ℚ :=
  if q = 0 then 0
  else
    let s : ℚ := |q|
    let e : ℤ := ratLog2 s
    let m : ℤ := roundHalfEven (s * qpow2 (52 - e))
    let r : ℚ := (m : ℚ) * qpow2 (e - 52)
    if q < 0 then -r else r

/-- Python `round(x, n)` on a float: the exact value of `x` is rounded
to `n` decimal places (ties to even, CPython rounds the true decimal
correctly), and the result is returned as the nearest binary64
double. -/
def pyRound (q : ℚ) (n : Nat) : ℚ :=
  fl64 (((roundHalfEven (q * 10 ^ n) : ℤ) : ℚ) / 10 ^ n)

/-- Python `s.rjust(w, c)`: left-pad `s` with `c` up to width `w`
(returns `s` unchanged when it is already at least `w` long). -/
def rjust (s : String) (w : Nat) (c : Char) : String :=
  String.mk (List.replicate (w - s.length) c) ++ s

/-! ## Module constants (`sysmon_serial.py`, lines 10-16) -/

/-- Warm-up delay after opening the serial port, seconds (line 14). -/
def serial_init_interval_seconds : Nat := 6

/-- Dwell time between updates to the serial port, seconds (line 16). -/
def serial_update_interval_seconds : Nat := 3

/-! ## The fixed-width formatter (`format_float_as_string`, lines 19-85) -/

/-- `max_integer_size = pow(10, integer_digits) - 1` (line 58). -/
def max_integer_size (integer_digits : Nat) : ℤ :=
  10 ^ integer_digits - 1

/-- `min_integer_size = 0 - int(max_integer_size / 10)` (line 59);
`max_integer_size / 10` is Python float true division, i.e. the exact
quotient rounded to the nearest binary64 double (`fl64`). -/
def min_integer_size (integer_digits : Nat) : ℤ :=
  0 - pyInt (fl64 ((max_integer_size integer_digits : ℚ) / 10))

/-- `integer_part = int(number)` followed by the two sequential clamp
assignments of lines 66-69. -/
def clamped_integer_part (number : ℚ) (integer_digits : Nat) : ℤ :=
  let ip₀ : ℤ := pyInt number
  let ip₁ : ℤ :=
    if number < (min_integer_size integer_digits : ℚ) then
      min_integer_size integer_digits
    else ip₀
  if number > (max_integer_size integer_digits : ℚ) then
    max_integer_size integer_digits
  else ip₁

/-- `decimal_part = abs(number) - abs(integer_part)` (line 63),
with `integer_part = int(number)` from line 62. -/
def decimal_part_raw (number : ℚ) : ℚ :=
  |number| - |((pyInt number : ℤ) : ℚ)|

/-- Lines 72-74: `decimal_part = round(decimal_part, decimal_digits)`
then `decimal_part = int(decimal_part * pow(10, decimal_digits))`.
The multiplication is a binary64 multiply (`pow(10, decimal_digits)` is
an exact integer, exactly representable for the digit counts used), so
its result is the exact product rounded by `fl64`. -/
def decimal_int (number : ℚ) (decimal_digits : Nat) : ℤ :=
  pyInt (fl64 (pyRound (decimal_part_raw number) decimal_digits * 10 ^ decimal_digits))

/-- `format_float_as_string(number, integer_digits, decimal_digits)`
(lines 19-85).  The integer part is clamped (lines 58-69), rendered and
left-padded with spaces to `integer_digits` characters (lines 77, 81);
the decimal part is rounded and scaled (lines 72-74) and rendered with
NO zero padding — the `rjust` of line 83 is commented out in the source.
Result: `integer_part + '.' + decimal_part` (line 85). -/
def format_float_as_string (number : ℚ) (integer_digits decimal_digits : Nat) : String :=
  rjust (Int.repr (clamped_integer_part number integer_digits)) integer_digits ' '
    ++ "." ++ Int.repr (decimal_int number decimal_digits)

/-! ## Frame builders (`get_*`, lines 87-252)

Each builder consumes the raw readings it obtains from `psutil` as
explicit arguments (the Metrics Provider is an external collaborator)
and produces the pair of display rows built in the source. -/

/-- `get_load_avg()` (lines 87-117): the three load averages from
`psutil.getloadavg()` become the arguments. -/
def get_load_avg (load0 load1 load2 : ℚ) : String × String :=
  ("    Load AVG    ",
   format_float_as_string load0 2 2 ++ " " ++
     format_float_as_string load1 2 2 ++ " " ++
     format_float_as_string load2 2 1)

/-- `get_cpu_usage()` (lines 119-145): `psutil.cpu_freq()[0]` and
`psutil.cpu_percent()` become the arguments. -/
def get_cpu_usage (cpu_freq cpu_percent : ℚ) : String × String :=
  ("   CPU  Usage   ",
   format_float_as_string cpu_freq 4 1 ++ "MHz " ++
     format_float_as_string cpu_percent 3 1 ++ "%")

/-- `get_memory_usage()` (lines 147-176): `psutil.virtual_memory().used`
and `.percent` become the arguments; line 166 converts bytes to GiB. -/
def get_memory_usage (mem_used_bytes mem_percent : ℚ) : String × String :=
  let mem_used_gib : ℚ := mem_used_bytes / 2 ^ 30
  ("   MEM  Usage   ",
   format_float_as_string mem_used_gib 2 3 ++ "GiB " ++
     format_float_as_string mem_percent 3 1 ++ "%")

/-- The Python exceptions that can arise in the builders. -/
inductive PyError : Type
  | typeError
  | indexError
  deriving DecidableEq, Repr

/-- `psutil.sensors_temperatures().get(name)[0].current`: subscripting
the result of `dict.get` raises `TypeError` when the key was absent
(`get` returned `None`); otherwise it yields the sensor's current
reading.  A sensor set is modelled as a partial map from sensor names
to their current readings. -/
def sensor_current (entry : Option ℚ) : Except PyError ℚ :=
  match entry with
  | none => Except.error PyError.typeError
  | some t => Except.ok t

/-- The body of the `try:` block in `get_cpu_mobo_temperature`
(lines 196-204): look up the two hard-coded sensor names and build the
two temperature rows. -/
def temperature_try_body (sensors : String → Option ℚ) :
    Except PyError (String × String) :=
  match sensor_current (sensors "k10temp") with
  | Except.error e => Except.error e
  | Except.ok cpu_temp =>
    match sensor_current (sensors "thinkpad") with
    | Except.error e => Except.error e
    | Except.ok mobo_temp =>
        Except.ok ("CPU  Temp " ++ format_float_as_string cpu_temp 3 1 ++ "C",
                   "MoBo Temp " ++ format_float_as_string mobo_temp 3 1 ++ "C")

/-- `get_cpu_mobo_temperature()` (lines 178-212).  The Boolean records
whether the `except TypeError:` handler ran (it prints a diagnostic,
line 206, before substituting the `" NaN "` placeholder, lines 207-210).
Exceptions other than `TypeError` would propagate to the caller. -/
def get_cpu_mobo_temperature (sensors : String → Option ℚ) :
    Except PyError (Bool × (String × String)) :=
  match temperature_try_body sensors with
  | Except.ok frame => Except.ok (false, frame)
  | Except.error PyError.typeError =>
      Except.ok (true, ("CPU  Temp " ++ " NaN " ++ "C",
                        "MoBo Temp " ++ " NaN " ++ "C"))
  | Except.error e => Except.error e

/-- `get_uptime()` (lines 214-252), as a function of the non-negative
elapsed time since boot in whole seconds.  `timedelta.days` is the whole
number of days and `timedelta.seconds` the remaining seconds below one
day; lines 236-238 derive hours and minutes with float division and
truncating `int` casts, and lines 241-243 right-justify the pieces. -/
def get_uptime (elapsed_seconds : Nat) : String × String :=
  let days_since_boot : Nat := elapsed_seconds / 86400
  let seconds_since_boot : Nat := elapsed_seconds % 86400
  let minutes_f : ℚ := (seconds_since_boot : ℚ) / 60
  let hours_since_boot : ℤ := pyInt (minutes_f / 60)
  let minutes_since_boot : ℤ := pyInt (minutes_f - (hours_since_boot : ℚ) * 60)
  ("     Uptime     ",
   rjust (Nat.repr days_since_boot) 4 ' ' ++ " d " ++
     rjust (Int.repr hours_since_boot) 2 ' ' ++ " h " ++
     rjust (Int.repr minutes_since_boot) 2 ' ' ++ " m")

/-! ## The transmission scheduler (`main`, lines 254-278) -/

/-- The five telemetry frame builders of the program. -/
inductive Builder : Type
  | cpuUsage
  | loadAvg
  | memUsage
  | uptime
  | temperature
  deriving DecidableEq, Repr

/-- The `sysinfo_functions` list of `main` (lines 264-270), in source
order. -/
def sysinfo_functions : List Builder :=
  [Builder.cpuUsage, Builder.loadAvg, Builder.memUsage,
   Builder.uptime, Builder.temperature]

/-- Observable events of the scheduling loop: blocking sleeps, builder
invocations and serial writes of the invoked builder's frame. -/
inductive Event : Type
  | sleep (seconds : Nat)
  | invoke (b : Builder)
  | write (b : Builder)
  deriving DecidableEq, Repr

/-- One pass of the `for function in sysinfo_functions:` loop
(lines 275-278): invoke the builder, write its frame, sleep the dwell
interval. -/
def cycle_trace : List Event :=
  sysinfo_functions.flatMap fun f =>
    [Event.invoke f, Event.write f, Event.sleep serial_update_interval_seconds]

/-- `m` iterations of the `while True:` loop (lines 273-278). -/
def loop_trace : Nat → List Event
  | 0 => []
  | m + 1 => cycle_trace ++ loop_trace m

/-- The observable trace of `main` (lines 254-278) truncated after `m`
full cycles: the single warm-up sleep of line 261 followed by the loop. -/
def main_trace (m : Nat) : List Event :=
  Event.sleep serial_init_interval_seconds :: loop_trace m

/-- The builders invoked along a trace, in order. -/
def invoked_builders (t : List Event) : List Builder :=
  t.filterMap fun e =>
    match e with
    | Event.invoke b => some b
    | _ => none

/-- `true` iff every write event in the trace is immediately followed by
a sleep of the dwell interval. -/
def dwell_after_writes : List Event → Bool
  | [] => true
  | Event.write _ :: rest =>
      (match rest with
       | Event.sleep s :: _ => s == serial_update_interval_seconds
       | _ => false) && dwell_after_writes rest
  | _ :: rest => dwell_after_writes rest

/-- `arduino.write(bytes(display_output[0] + display_output[1], 'utf-8'))`
(line 277): the two rows are concatenated with no separator and encoded
one byte per character (all emitted rows are ASCII, where UTF-8 is one
byte per character). -/
def serialize_frame (frame : String × String) : List Nat :=
  (frame.1 ++ frame.2).data.map Char.toNat

/-- The possible outcomes of one `arduino.write` call. -/
inductive IoError : Type
  | serialException
  deriving DecidableEq, Repr

/-- The write loop of `main` with a fallible serial link.  `link k` is
the outcome of the `k`-th write (counting from 0); transmission `k`
sends the frame of builder `sysinfo_functions[k % 5]`.  A raised write
error propagates out of the loop immediately (Python has no handler in
`main`); otherwise the loop continues.  `fuel` bounds how many further
write attempts are observed; the result is the list of attempted write
indices in order, paired with the error that terminated the loop, if
any. -/
def run_scheduler (link : Nat → Except IoError Unit) :
    Nat → Nat → List Nat × Option IoError
  | _, 0 => ([], none)
  | k, fuel + 1 =>
      match link k with
      | Except.error e => ([k], some e)
      | Except.ok _ =>
          let rest := run_scheduler link (k + 1) fuel
          (k :: rest.1, rest.2)

/-! ## Helper lemmas -/

/-- Truncation of an integer-valued rational is the integer itself. -/
lemma pyInt_intCast (z : ℤ) : pyInt (z : ℚ) = z := by
  unfold pyInt
  by_cases h : (0:ℚ) ≤ (z : ℚ)
  · rw [if_pos h, Int.floor_intCast]
  · rw [if_neg h, ← Int.cast_neg, Int.floor_intCast, neg_neg]

/-- On non-negative inputs, Python `int` agrees with the floor. -/
lemma pyInt_of_nonneg {q : ℚ} (h : 0 ≤ q) : pyInt q = ⌊q⌋ := by
  unfold pyInt
  exact if_pos h

/-- Length of a right-justified string. -/
lemma rjust_length (s : String) (w : Nat) (c : Char) :
    (rjust s w c).length = max w s.length := by
  unfold rjust
  rw [String.length_append]
  have h : (String.mk (List.replicate (w - s.length) c)).length = w - s.length := by
    show (List.replicate (w - s.length) c).length = w - s.length
    exact List.length_replicate _ _
  rw [h]
  omega

/-- Length of `Nat.toDigitsCore` with adequate fuel, in terms of
`Nat.digits`. -/
lemma toDigitsCore_length :
    ∀ (fuel n : Nat) (ds : List Char), n < fuel →
      (Nat.toDigitsCore 10 fuel n ds).length =
        (if n = 0 then 1 else (Nat.digits 10 n).length) + ds.length := by
  intro fuel
  induction fuel with
  | zero => intro n ds h; omega
  | succ fuel ih =>
    intro n ds h
    simp only [Nat.toDigitsCore]
    by_cases h10 : n / 10 = 0
    · have hlt : n < 10 := by omega
      rw [if_pos h10]
      rcases Nat.eq_zero_or_pos n with hn | hn
      · simp [hn]
        omega
      · have hlen : (Nat.digits 10 n).length = 1 := by
          rw [Nat.digits_len 10 n (by norm_num) (by omega)]
          have : Nat.log 10 n = 0 := Nat.log_eq_zero_iff.mpr (Or.inl hlt)
          omega
        rw [if_neg (by omega), hlen]
        simp
        omega
    · rw [if_neg h10, ih (n / 10) _ (by omega), if_neg h10]
      have hn : n ≠ 0 := by omega
      rw [if_neg hn,
        Nat.digits_def' (by norm_num : (1:ℕ) < 10) (Nat.pos_of_ne_zero hn)]
      simp
      omega

/-- Length of the decimal rendering of a natural number, in terms of
`Nat.digits`. -/
lemma natRepr_length (n : Nat) :
    (Nat.repr n).length = if n = 0 then 1 else (Nat.digits 10 n).length := by
  have h := toDigitsCore_length (n + 1) n [] (Nat.lt_succ_self n)
  have hrepr : (Nat.repr n).length = (Nat.toDigitsCore 10 (n + 1) n []).length := rfl
  rw [hrepr, h]
  simp

/-- A natural number renders in at most `k` characters iff it is below
`10 ^ k`. -/
lemma natRepr_length_le_iff (n k : Nat) (hk : 0 < k) :
    (Nat.repr n).length ≤ k ↔ n < 10 ^ k := by
  rw [natRepr_length]
  by_cases hn : n = 0
  · subst hn
    simp only [if_pos rfl]
    exact iff_of_true hk (Nat.pos_pow_of_pos k (by norm_num))
  · rw [if_neg hn, Nat.digits_len 10 n (by norm_num) hn,
      Nat.lt_pow_iff_log_lt (by norm_num) hn]
    omega

/-- The decimal rendering of a non-negative integer is that of the
corresponding natural number. -/
lemma intRepr_ofNat (n : Nat) : Int.repr ((n : ℕ) : ℤ) = Nat.repr n := rfl

/-! ## Claim theorems -/

unseal Rat.mul Rat.inv Rat.add Rat.sub Rat.ofScientific in
/-- C1: the source formatter does NOT return a string of length
`integer_digits + 1 + decimal_digits` for every input — the zero
padding of the decimal text is commented out in the source (line 83),
contradicting the function's own docstring (lines 27-28).  At
`number = 0.05`, `integer_digits = 1`, `decimal_digits = 2` the result
is `"0.5"`, of length 3 rather than 4. -/
theorem c1_format_length_gap :
    format_float_as_string (1/20) 1 2 = "0.5" ∧
    (format_float_as_string (1/20) 1 2).length ≠ 1 + 1 + 2 := by
  decide

unseal Rat.mul Rat.inv Rat.add Rat.sub Rat.ofScientific in
/-- C2: the frame rows are NOT always 16 characters: with load averages
`(0.0, 0.0, 0.0)` the second row of the load-average frame is
`" 0.0  0.0  0.0"`, of length 14, contradicting the builder's docstring
(lines 90-98); the first row is 16 characters. -/
theorem c2_row_length_gap :
    (get_load_avg 0 0 0).2 = " 0.0  0.0  0.0" ∧
    (get_load_avg 0 0 0).2.length ≠ 16 ∧
    (get_load_avg 0 0 0).1.length = 16 := by
  decide

unseal Rat.mul Rat.inv Rat.add Rat.sub Rat.ofScientific in
/-- C4 counterexample: the second literal scenario is false of the
program.  The binary64 value of the literal `123.45` is the rational
`8687021468732621 / 2^46`; its fractional remainder `0.45000000000000284…`
lies strictly above `0.45`, so `round(·, 1)` takes it to `0.5` (no tie)
and the program returns `"99.5"`, not the `"99.4"` of the docstring
(line 36) and the spec. -/
theorem c4_counterexample :
    format_float_as_string (8687021468732621/70368744177664) 2 1 = "99.5" ∧
    format_float_as_string (8687021468732621/70368744177664) 2 1 ≠ "99.4" := by
  decide

unseal Rat.mul Rat.inv Rat.add Rat.sub Rat.ofScientific in
/-- C4 (amended): at the binary64 values of the literals —
`123.45 = 8687021468732621/2^46` and `-23.45 = -6600588203864883/2^48` —
`format(123.45, 4, 3)` returns `" 123.450"` and `format(-23.45, 2, 3)`
clamps the integer part to `-9` and returns `"-9.450"` as claimed, but
`format(123.45, 2, 1)` clamps the integer part to `99` and returns
`"99.5"`: the double's remainder is slightly above `0.45` and rounds up
to `0.5`. -/
theorem c4_literal_scenarios_binary64 :
    format_float_as_string (8687021468732621/70368744177664) 4 3 = " 123.450" ∧
    (clamped_integer_part (8687021468732621/70368744177664) 2 = 99 ∧
      format_float_as_string (8687021468732621/70368744177664) 2 1 = "99.5") ∧
    (clamped_integer_part (-6600588203864883/281474976710656) 2 = -9 ∧
      format_float_as_string (-6600588203864883/281474976710656) 2 3 = "-9.450") := by
  decide

unseal Rat.mul Rat.inv Rat.add Rat.sub Rat.ofScientific in
/-- C5: the formatter does not propagate a rounding carry into the
integer part: at `number = 1.996`, `integer_digits = 1`,
`decimal_digits = 2` the fractional remainder `0.996` rounds up to `1`,
the scaled decimal part becomes `10 ^ 2 = 100`, the integer part stays
`1` unincremented, and the rendered field is `"1.100"` — its decimal
text one character too wide. -/
theorem c5_rounding_carry_not_propagated :
    clamped_integer_part (1996/1000) 1 = 1 ∧
    decimal_int (1996/1000) 2 = 10 ^ 2 ∧
    format_float_as_string (1996/1000) 1 2 = "1.100" ∧
    (Int.repr (decimal_int (1996/1000) 2)).length = 2 + 1 := by
  decide

unseal Rat.mul Rat.inv Rat.add Rat.sub Rat.ofScientific in
/-- C8: each transmission is the bytes of row 1 immediately followed by
the bytes of row 2, one byte per character and with no separator — but
it is NOT always 32 bytes: the zero-padding defect of C1/C2 makes the
load-average frame at readings `(0.0, 0.0, 0.0)` serialize to 30
bytes. -/
theorem c8_wire_format_gap :
    (∀ row1 row2 : String,
      serialize_frame (row1, row2) =
        row1.data.map Char.toNat ++ row2.data.map Char.toNat) ∧
    (serialize_frame (get_load_avg 0 0 0)).length = 30 := by
  constructor
  · intro r1 r2
    simp [serialize_frame]
  · decide

/-- C6: whenever either hard-coded sensor name is absent from the
sensor set, the lookup raises `TypeError`, the handler runs (the Boolean
records its diagnostic print), and the builder still returns — it never
propagates the failure — the well-formed `NaN`-placeholder frame, both
rows 16 characters. -/
theorem c6_sensor_absent_fallback (sensors : String → Option ℚ)
    (h : sensors "k10temp" = none ∨ sensors "thinkpad" = none) :
    get_cpu_mobo_temperature sensors =
      Except.ok (true, ("CPU  Temp  NaN C", "MoBo Temp  NaN C")) ∧
    "CPU  Temp  NaN C".length = 16 ∧ "MoBo Temp  NaN C".length = 16 := by
  refine ⟨?_, by decide, by decide⟩
  have hbody : temperature_try_body sensors = Except.error PyError.typeError := by
    rcases h with h | h
    · simp [temperature_try_body, sensor_current, h]
    · cases hk : sensors "k10temp" with
      | none => simp [temperature_try_body, sensor_current, hk]
      | some t => simp [temperature_try_body, sensor_current, hk, h]
  simp [get_cpu_mobo_temperature, hbody]

/-- C6 witness: with both sensors absent the builder returns the logged
fallback frame. -/
theorem c6_witness :
    get_cpu_mobo_temperature (fun _ => none) =
      Except.ok (true, ("CPU  Temp  NaN C", "MoBo Temp  NaN C")) ∧
    "CPU  Temp  NaN C".length = 16 ∧ "MoBo Temp  NaN C".length = 16 :=
  c6_sensor_absent_fallback (fun _ => none) (Or.inl rfl)

/-- Helper for C9: starting at write index `i`, with the link healthy
strictly before index `k` and failing at `k`, the loop attempts exactly
the writes `i, i+1, …, k` and stops with the error. -/
lemma run_scheduler_halts (link : Nat → Except IoError Unit) (k : Nat) (e : IoError)
    (hfail : link k = Except.error e) :
    ∀ fuel i, i ≤ k → k - i < fuel →
      (∀ j, i ≤ j → j < k → link j = Except.ok ()) →
      run_scheduler link i fuel = (List.range' i (k - i + 1), some e) := by
  intro fuel
  induction fuel with
  | zero => intro i h1 h2 _; omega
  | succ fuel ih =>
    intro i hik hf hok
    rcases Nat.eq_or_lt_of_le hik with heq | hlt
    · subst heq
      simp [run_scheduler, hfail, List.range']
    · have hoki : link i = Except.ok () := hok i le_rfl hlt
      have ih' := ih (i + 1) (by omega) (by omega) (fun j hj1 hj2 => hok j (by omega) hj2)
      simp only [run_scheduler, hoki, ih']
      rw [show k - i + 1 = (k - (i + 1) + 1) + 1 by omega]
      simp [List.range']

/-- C9: if the serial link write fails at transmission `k` (having
succeeded on every earlier transmission), the scheduling loop attempts
exactly the writes `0, …, k` — the failing write is not retried and no
later write is attempted — and surfaces the error. -/
theorem c9_transport_failure_halts (link : Nat → Except IoError Unit)
    (k fuel : Nat) (e : IoError) (hfail : link k = Except.error e)
    (hok : ∀ j, j < k → link j = Except.ok ()) (hfuel : k < fuel) :
    run_scheduler link 0 fuel = (List.range (k + 1), some e) := by
  have h := run_scheduler_halts link k e hfail fuel 0 (by omega) (by omega)
    (fun j _ hj => hok j hj)
  simpa [List.range_eq_range'] using h

/-- C9 witness: a link failing at the third write halts the loop after
exactly three attempted writes. -/
theorem c9_witness :
    run_scheduler
      (fun j => if j = 2 then Except.error IoError.serialException else Except.ok ())
      0 5 = (List.range 3, some IoError.serialException) :=
  c9_transport_failure_halts _ 2 5 IoError.serialException (by simp)
    (fun j hj => by simp [Nat.ne_of_lt hj]) (by norm_num)

/-- Helper for C7: `invoked_builders` distributes over appending. -/
lemma invoked_builders_append (a b : List Event) :
    invoked_builders (a ++ b) = invoked_builders a ++ invoked_builders b := by
  simp [invoked_builders, List.filterMap_append]

/-- Helper for C7: one cycle invokes exactly the configured builders. -/
lemma invoked_builders_cycle : invoked_builders cycle_trace = sysinfo_functions := rfl

/-- Helper for C7: `m` loop iterations invoke the configured order `m`
times. -/
lemma invoked_builders_loop (m : Nat) :
    invoked_builders (loop_trace m) =
      List.flatten (List.replicate m sysinfo_functions) := by
  induction m with
  | zero => rfl
  | succ m ih =>
    rw [loop_trace, invoked_builders_append, invoked_builders_cycle, ih,
      List.replicate_succ]
    simp

/-- Helper for C7: every write in the loop trace is immediately followed
by a dwell sleep. -/
lemma dwell_after_writes_loop (m : Nat) :
    dwell_after_writes (loop_trace m) = true := by
  induction m with
  | zero => rfl
  | succ m ih =>
    rw [loop_trace]
    simp only [cycle_trace, sysinfo_functions, serial_update_interval_seconds,
      List.flatMap_cons, List.flatMap_nil, List.cons_append, List.nil_append,
      List.append_assoc]
    simp [dwell_after_writes, serial_update_interval_seconds, ih]

/-- C7: the scheduler trace begins with the single warm-up sleep before
any transmission, and over `m` full cycles it invokes the builders in
exactly the configured order — CPU usage, load average, memory usage,
uptime, temperature — repeated `m` times, with a dwell sleep
immediately after every write. -/
theorem c7_scheduler_cycle_order (m : Nat) :
    (main_trace m).head? = some (Event.sleep serial_init_interval_seconds) ∧
    invoked_builders (main_trace m) =
      List.flatten (List.replicate m
        [Builder.cpuUsage, Builder.loadAvg, Builder.memUsage,
         Builder.uptime, Builder.temperature]) ∧
    dwell_after_writes (main_trace m) = true := by
  refine ⟨rfl, ?_, ?_⟩
  · have h : invoked_builders (main_trace m) = invoked_builders (loop_trace m) := rfl
    rw [h, invoked_builders_loop]
    rfl
  · have h : dwell_after_writes (main_trace m) = dwell_after_writes (loop_trace m) := rfl
    rw [h, dwell_after_writes_loop]

/-- Helper for C3: `qpow2` is the integer power of two on `ℚ`. -/
lemma qpow2_eq_zpow (k : ℤ) : qpow2 k = (2:ℚ) ^ k := by
  rcases k with n | n
  · simp [qpow2]
  · have h : (-Int.negSucc n).toNat = n + 1 := rfl
    simp [qpow2, zpow_negSucc, one_div, h]

/-- Helper for C3: powers of two are positive. -/
lemma qpow2_pos (k : ℤ) : 0 < qpow2 k := by
  unfold qpow2
  split <;> positivity

/-- Helper for C3: `qpow2` turns sums into products. -/
lemma qpow2_add (a b : ℤ) : qpow2 (a + b) = qpow2 a * qpow2 b := by
  rw [qpow2_eq_zpow, qpow2_eq_zpow, qpow2_eq_zpow,
    zpow_add₀ (by norm_num : (2:ℚ) ≠ 0)]

/-- Helper for C3: with fuel at least `n`, `log2fuel` computes the
binary logarithm. -/
lemma log2fuel_bounds :
    ∀ (fuel n : Nat), 1 ≤ n → n ≤ fuel →
      2 ^ log2fuel fuel n ≤ n ∧ n < 2 ^ (log2fuel fuel n + 1) := by
  intro fuel
  induction fuel with
  | zero => intro n h1 h2; omega
  | succ fuel ih =>
    intro n h1 h2
    simp only [log2fuel]
    by_cases h : n ≤ 1
    · rw [if_pos h]
      norm_num
      omega
    · rw [if_neg h]
      obtain ⟨l, u⟩ := ih (n / 2) (by omega) (by omega)
      simp only [pow_succ] at u ⊢
      omega

/-- Helper for C3: the binary logarithm brackets its argument. -/
lemma log2N_bounds (n : Nat) (h : 1 ≤ n) :
    2 ^ log2N n ≤ n ∧ n < 2 ^ (log2N n + 1) :=
  log2fuel_bounds n n h le_rfl

/-- Helper for C3: the binade exponent is a lower bound:
`2 ^ ratLog2 s ≤ s` for positive `s`. -/
lemma ratLog2_le (s : ℚ) (hs : 0 < s) : qpow2 (ratLog2 s) ≤ s := by
  simp only [ratLog2]
  split_ifs with h
  · exact h
  · have hnum0 : 0 < s.num := Rat.num_pos.mpr hs
    have hnum1 : 1 ≤ s.num.toNat := by omega
    have hden1 : 1 ≤ s.den := s.den_pos
    obtain ⟨hla, -⟩ := log2N_bounds s.num.toNat hnum1
    obtain ⟨-, hlb⟩ := log2N_bounds s.den hden1
    have hnumZ : ((2 ^ log2N s.num.toNat : ℕ) : ℤ) ≤ s.num := by
      have h1 : ((2 ^ log2N s.num.toNat : ℕ) : ℤ) ≤ (s.num.toNat : ℤ) :=
        Int.ofNat_le.mpr hla
      rwa [Int.toNat_of_nonneg hnum0.le] at h1
    have hnumQ : (2:ℚ) ^ log2N s.num.toNat ≤ (s.num : ℚ) := by
      exact_mod_cast hnumZ
    have hdenQ : (s.den : ℚ) ≤ (2:ℚ) ^ (log2N s.den + 1) := by
      have h1 : (s.den : ℚ) < ((2 ^ (log2N s.den + 1) : ℕ) : ℚ) := by
        exact_mod_cast hlb
      push_cast at h1
      exact h1.le
    have hden0 : (0:ℚ) < (s.den : ℚ) := by exact_mod_cast s.den_pos
    have hfrac : (2:ℚ) ^ log2N s.num.toNat / 2 ^ (log2N s.den + 1)
        ≤ (s.num : ℚ) / (s.den : ℚ) := by
      rw [div_le_div_iff₀ (by positivity) hden0]
      exact mul_le_mul hnumQ hdenQ (by positivity) (le_trans (by positivity) hnumQ)
    rw [qpow2_eq_zpow]
    calc (2:ℚ) ^ ((log2N s.num.toNat : ℤ) - (log2N s.den : ℤ) - 1)
        = (2:ℚ) ^ log2N s.num.toNat / 2 ^ (log2N s.den + 1) := by
          rw [show (log2N s.num.toNat : ℤ) - (log2N s.den : ℤ) - 1
                = (log2N s.num.toNat : ℤ) - ((log2N s.den + 1 : ℕ) : ℤ) by
              push_cast; ring]
          rw [zpow_sub₀ (by norm_num : (2:ℚ) ≠ 0), zpow_natCast, zpow_natCast]
      _ ≤ (s.num : ℚ) / (s.den : ℚ) := hfrac
      _ = s := Rat.num_div_den s

/-- Helper for C3: rounding to the nearest integer moves a value by at
most one half. -/
lemma roundHalfEven_sub_abs_le (q : ℚ) : |(roundHalfEven q : ℚ) - q| ≤ 1/2 := by
  have h0 : (⌊q⌋ : ℚ) ≤ q := Int.floor_le q
  have h1 : q < ⌊q⌋ + 1 := Int.lt_floor_add_one q
  simp only [roundHalfEven]
  split_ifs with ha hb hc
  · rw [abs_le]
    constructor <;> push_cast <;> linarith
  · rw [not_lt] at ha
    rw [abs_le]
    constructor <;> push_cast <;> linarith
  · rw [not_lt] at ha hb
    rw [abs_le]
    constructor <;> push_cast <;> linarith
  · rw [not_lt] at ha hb
    rw [abs_le]
    constructor <;> push_cast <;> linarith

/-- Helper for C3: rounding a non-negative value stays non-negative. -/
lemma roundHalfEven_nonneg (q : ℚ) (h : 0 ≤ q) : 0 ≤ roundHalfEven q := by
  have hf : 0 ≤ ⌊q⌋ := Int.floor_nonneg.mpr h
  simp only [roundHalfEven]
  split_ifs <;> omega

/-- Helper for C3: zero is a fixed point of binary64 rounding. -/
lemma fl64_zero : fl64 0 = 0 := by
  simp [fl64]

/-- Helper for C3: binary64 rounding preserves non-negativity. -/
lemma fl64_nonneg (q : ℚ) (h : 0 ≤ q) : 0 ≤ fl64 q := by
  rcases eq_or_lt_of_le h with h0 | h0
  · rw [← h0, fl64_zero]
  · have hne : q ≠ 0 := ne_of_gt h0
    have hnlt : ¬ q < 0 := not_lt.mpr h
    simp only [fl64]
    rw [if_neg hne, if_neg hnlt]
    have h1 : (0:ℤ) ≤ roundHalfEven (|q| * qpow2 (52 - ratLog2 |q|)) :=
      roundHalfEven_nonneg _ (mul_nonneg (abs_nonneg q) (qpow2_pos _).le)
    exact mul_nonneg (by exact_mod_cast h1) (qpow2_pos _).le

/-- Helper for C3: binary64 rounding of a positive value has relative
error at most `2 ^ (-53)`. -/
lemma fl64_err (q : ℚ) (hq : 0 < q) : |fl64 q - q| ≤ q * qpow2 (-53) := by
  have habs : |q| = q := abs_of_pos hq
  have hne : q ≠ 0 := ne_of_gt hq
  have hnlt : ¬ q < 0 := not_lt.mpr hq.le
  simp only [fl64]
  rw [if_neg hne, if_neg hnlt, habs]
  have hcancel : qpow2 (52 - ratLog2 q) * qpow2 (ratLog2 q - 52) = 1 := by
    rw [← qpow2_add, show (52 - ratLog2 q) + (ratLog2 q - 52) = 0 by ring]
    simp [qpow2]
  have key : (roundHalfEven (q * qpow2 (52 - ratLog2 q)) : ℚ) * qpow2 (ratLog2 q - 52) - q
      = ((roundHalfEven (q * qpow2 (52 - ratLog2 q)) : ℚ) - q * qpow2 (52 - ratLog2 q))
          * qpow2 (ratLog2 q - 52) := by
    rw [sub_mul, mul_assoc, hcancel, mul_one]
  rw [key, abs_mul, abs_of_pos (qpow2_pos _)]
  have h2 := roundHalfEven_sub_abs_le (q * qpow2 (52 - ratLog2 q))
  calc |(roundHalfEven (q * qpow2 (52 - ratLog2 q)) : ℚ) - q * qpow2 (52 - ratLog2 q)|
        * qpow2 (ratLog2 q - 52)
      ≤ (1/2) * qpow2 (ratLog2 q - 52) :=
        mul_le_mul_of_nonneg_right h2 (qpow2_pos _).le
    _ = qpow2 (ratLog2 q - 53) := by
        rw [show ratLog2 q - 53 = (ratLog2 q - 52) + (-1) by ring, qpow2_add]
        have : qpow2 (-1) = 1/2 := by norm_num [qpow2]
        rw [this]
        ring
    _ = qpow2 (ratLog2 q) * qpow2 (-53) := by
        rw [← qpow2_add]
        ring_nf
    _ ≤ q * qpow2 (-53) :=
        mul_le_mul_of_nonneg_right (ratLog2_le q hq) (qpow2_pos _).le

/-- Helper for C3: the raw remainder is the fractional part of the
absolute value. -/
lemma decimal_part_raw_eq_fract (x : ℚ) : decimal_part_raw x = Int.fract |x| := by
  unfold decimal_part_raw pyInt
  by_cases h : 0 ≤ x
  · rw [if_pos h, abs_of_nonneg h,
      abs_of_nonneg (show (0:ℚ) ≤ ((⌊x⌋ : ℤ) : ℚ) by
        exact_mod_cast Int.floor_nonneg.mpr h)]
    unfold Int.fract
    rfl
  · have hx : x < 0 := lt_of_not_ge h
    rw [if_neg h, abs_of_neg hx]
    have h1 : ((-⌊-x⌋ : ℤ) : ℚ) = -((⌊-x⌋ : ℤ) : ℚ) := by push_cast; ring
    rw [h1, abs_neg,
      abs_of_nonneg (show (0:ℚ) ≤ ((⌊-x⌋ : ℤ) : ℚ) by
        exact_mod_cast Int.floor_nonneg.mpr (by linarith : (0:ℚ) ≤ -x))]
    unfold Int.fract
    rfl

unseal Rat.mul Rat.inv Rat.add Rat.sub Rat.ofScientific in
/-- Helper for C3: the binary64 unit roundoff `2 ^ (-53)`, as an
explicit rational. -/
lemma qpow2_neg53 : qpow2 (-53) = 1 / 9007199254740992 := by decide

unseal Rat.mul Rat.inv Rat.add Rat.sub Rat.ofScientific in
/-- Helper for C3: at width 17 the binary64 division rounds
`(10^17 - 1) / 10` up to `10^16`, so the program's minimum is
`-10^16`. -/
lemma min_integer_size_seventeen : min_integer_size 17 = -(10 ^ 16) := by decide

/-- Helper for C3: the program's scaled decimal part equals the exactly
rounded scaled remainder `R` or falls one below it, for the digit counts
used (both binary64 roundings in the path move the value by a relative
`2 ^ (-53)`, far less than one-half once `R ≤ 10 ^ 15`). -/
lemma decimal_int_bounds (number : ℚ) (dd : Nat) (hdd : dd ≤ 15) :
    roundHalfEven (decimal_part_raw number * 10 ^ dd) - 1 ≤ decimal_int number dd ∧
    decimal_int number dd ≤ roundHalfEven (decimal_part_raw number * 10 ^ dd) := by
  have hrem0 : 0 ≤ decimal_part_raw number := by
    rw [decimal_part_raw_eq_fract]
    exact Int.fract_nonneg _
  have hrem1 : decimal_part_raw number < 1 := by
    rw [decimal_part_raw_eq_fract]
    exact Int.fract_lt_one _
  have hpow : (0:ℚ) < 10 ^ dd := by positivity
  have hdef : decimal_int number dd =
      pyInt (fl64 (fl64 ((roundHalfEven (decimal_part_raw number * 10 ^ dd) : ℚ)
        / 10 ^ dd) * 10 ^ dd)) := rfl
  rw [hdef]
  set R : ℤ := roundHalfEven (decimal_part_raw number * 10 ^ dd) with hRdef
  have hR0 : 0 ≤ R := roundHalfEven_nonneg _ (mul_nonneg hrem0 hpow.le)
  have hRabs := roundHalfEven_sub_abs_le (decimal_part_raw number * 10 ^ dd)
  rw [abs_le] at hRabs
  have hRub : (R : ℚ) ≤ 10 ^ dd := by
    have h2 : decimal_part_raw number * 10 ^ dd < 10 ^ dd := by
      nlinarith
    have h3 : (R : ℚ) < (10:ℚ) ^ dd + 1 := by linarith [hRabs.2]
    have h4 : R < 10 ^ dd + 1 := by exact_mod_cast h3
    have h5 : (R : ℚ) ≤ ((10 ^ dd : ℤ) : ℚ) := by exact_mod_cast (by omega : R ≤ 10 ^ dd)
    exact_mod_cast h5
  have hR15 : (R : ℚ) ≤ 10 ^ 15 := by
    have h6 : (10:ℚ) ^ dd ≤ 10 ^ 15 := by gcongr; norm_num
    linarith
  rcases eq_or_lt_of_le hR0 with hR0' | hRpos
  · rw [← hR0']
    have hz : pyInt (fl64 (fl64 (((0:ℤ) : ℚ) / 10 ^ dd) * 10 ^ dd)) = 0 := by
      have h0 : ((0:ℤ) : ℚ) = 0 := by norm_num
      rw [h0, zero_div, fl64_zero, zero_mul, fl64_zero]
      simp [pyInt]
    rw [hz]
    omega
  · have hR1 : (1:ℚ) ≤ (R : ℚ) := by exact_mod_cast hRpos
    have hRQpos : (0:ℚ) < (R : ℚ) := by linarith
    have hu : (0:ℚ) < (R : ℚ) / 10 ^ dd := div_pos hRQpos hpow
    have hu10 : ((R : ℚ) / 10 ^ dd) * 10 ^ dd = (R : ℚ) :=
      div_mul_cancel₀ _ (ne_of_gt hpow)
    have hdelta := qpow2_neg53
    have hyerr := fl64_err _ hu
    rw [abs_le, hdelta] at hyerr
    set y := fl64 ((R : ℚ) / 10 ^ dd) with hydef
    have hy0 : 0 < y := by nlinarith [hyerr.1, hu, hpow]
    have hv0 : 0 < y * 10 ^ dd := mul_pos hy0 hpow
    have hzerr := fl64_err _ hv0
    rw [abs_le, hdelta] at hzerr
    set z := fl64 (y * 10 ^ dd) with hzdef
    have hyv : |y * 10 ^ dd - (R : ℚ)| ≤ (R : ℚ) * (1 / 9007199254740992) := by
      rw [← hu10]
      calc |y * 10 ^ dd - ((R : ℚ) / 10 ^ dd) * 10 ^ dd|
          = |y - (R : ℚ) / 10 ^ dd| * 10 ^ dd := by
            rw [← sub_mul, abs_mul, abs_of_pos hpow]
        _ ≤ (((R : ℚ) / 10 ^ dd) * (1 / 9007199254740992)) * 10 ^ dd := by
            apply mul_le_mul_of_nonneg_right _ hpow.le
            rw [abs_le]
            exact hyerr
        _ = (((R : ℚ) / 10 ^ dd) * 10 ^ dd) * (1 / 9007199254740992) := by ring
    rw [abs_le] at hyv
    have hwub : y * 10 ^ dd ≤ (R : ℚ) + (R : ℚ) * (1 / 9007199254740992) := by
      linarith [hyv.2]
    have hwlb : (R : ℚ) - (R : ℚ) * (1 / 9007199254740992) ≤ y * 10 ^ dd := by
      linarith [hyv.1]
    have h5 : (y * 10 ^ dd) * (1 / 9007199254740992)
        ≤ ((R : ℚ) + (R : ℚ) * (1 / 9007199254740992)) * (1 / 9007199254740992) :=
      mul_le_mul_of_nonneg_right hwub (by norm_num)
    have h6 : (0:ℚ) ≤ (y * 10 ^ dd) * (1 / 9007199254740992) := by positivity
    have hzlow : (R : ℚ) - 1/2 ≤ z := by nlinarith [hzerr.1, hwlb, h5, hR15]
    have hzhigh : z ≤ (R : ℚ) + 1/2 := by nlinarith [hzerr.2, hwub, h5, hR15]
    have hz0 : (0:ℚ) ≤ z := by linarith
    rw [pyInt_of_nonneg hz0]
    constructor
    · exact Int.le_floor.mpr (by push_cast; linarith)
    · have h7 : ⌊z⌋ < R + 1 := Int.floor_lt.mpr (by push_cast; linarith)
      omega

unseal Rat.mul Rat.inv Rat.add Rat.sub Rat.ofScientific in
/-- Helper for C3: for widths 1 through 16 the binary64 division in
`min_integer_size` is benign and the program's minimum equals
`-⌊max / 10⌋`. -/
lemma min_integer_size_small :
    ∀ d : Nat, d < 17 → 1 ≤ d → min_integer_size d = -((10 ^ d - 1) / 10) := by
  decide

unseal Rat.mul Rat.inv Rat.add Rat.sub Rat.ofScientific in
/-- C3 counterexample: the claim's two float-sensitive parts are false
of the program.  At `integer_digits = 17` the binary64 division
`(10^17 - 1) / 10` rounds up to `10^16` exactly, so the program's
minimum is `-10^16`, not `-⌊max / 10⌋ = -(10^16 - 1)`.  And at the
binary64 value of `0.29` (`5224175567749775 / 2^54`) with
`decimal_digits = 2`, the rounded remainder is `0.29`, whose binary64
scaling `0.29 * 100` lands just below `29`, so the program truncates to
`28` while the exactly-rounded scaled remainder is `29`. -/
theorem c3_counterexample :
    min_integer_size 17 = -(10 ^ 16) ∧
    min_integer_size 17 ≠ -((10 ^ 17 - 1) / 10) ∧
    decimal_int (5224175567749775/18014398509481984) 2 = 28 ∧
    roundHalfEven ((|(5224175567749775/18014398509481984 : ℚ)| -
        |((pyInt (5224175567749775/18014398509481984) : ℤ) : ℚ)|) * 10 ^ 2) = 29 := by
  decide

/-- C3 (amended): `max = 10 ^ integer_digits - 1` always, and
`min = -⌊max / 10⌋` for `integer_digits ≤ 16` — but at
`integer_digits = 17` the binary64 division yields `min = -10^16`
instead.  Clamping is exact for every width: a number above `max`
(below `min`) gets integer part exactly `max` (`min`).  The scaled
decimal part is computed from the original value's fractional
remainder, unadjusted by the clamp, but through binary64 rounding and
scaling: for `decimal_digits ≤ 15` it equals the exactly-rounded scaled
remainder `R`, or `R - 1` when the binary64 product lands just below an
integer. -/
theorem c3_clamping_extremes_binary64 (integer_digits decimal_digits : Nat)
    (hd : 1 ≤ integer_digits) (hdd : decimal_digits ≤ 15) (number : ℚ) :
    max_integer_size integer_digits = 10 ^ integer_digits - 1 ∧
    (integer_digits ≤ 16 →
      min_integer_size integer_digits = -((10 ^ integer_digits - 1) / 10)) ∧
    min_integer_size 17 = -(10 ^ 16) ∧
    ((max_integer_size integer_digits : ℚ) < number →
      clamped_integer_part number integer_digits = max_integer_size integer_digits) ∧
    (number < (min_integer_size integer_digits : ℚ) →
      clamped_integer_part number integer_digits = min_integer_size integer_digits) ∧
    roundHalfEven ((|number| - |((pyInt number : ℤ) : ℚ)|) * 10 ^ decimal_digits) - 1
        ≤ decimal_int number decimal_digits ∧
    decimal_int number decimal_digits
        ≤ roundHalfEven ((|number| - |((pyInt number : ℤ) : ℚ)|) * 10 ^ decimal_digits) := by
  have hpow : (0:ℤ) < 10 ^ integer_digits := pow_pos (by norm_num) _
  have hmax0 : (0:ℤ) ≤ max_integer_size integer_digits := by
    unfold max_integer_size
    omega
  have hmaxQ : (0:ℚ) ≤ (max_integer_size integer_digits : ℚ) := by
    exact_mod_cast hmax0
  have hdivQ : (0:ℚ) ≤ (max_integer_size integer_digits : ℚ) / 10 :=
    div_nonneg hmaxQ (by norm_num)
  have hflQ : (0:ℚ) ≤ fl64 ((max_integer_size integer_digits : ℚ) / 10) :=
    fl64_nonneg _ hdivQ
  have hminle : (min_integer_size integer_digits : ℚ) ≤ 0 := by
    unfold min_integer_size
    rw [pyInt_of_nonneg hflQ]
    have h1 : (0:ℤ) ≤ ⌊fl64 ((max_integer_size integer_digits : ℚ) / 10)⌋ :=
      Int.floor_nonneg.mpr hflQ
    have h2 : (0 - ⌊fl64 ((max_integer_size integer_digits : ℚ) / 10)⌋ : ℤ) ≤ 0 := by
      omega
    exact_mod_cast h2
  have hbounds := decimal_int_bounds number decimal_digits hdd
  refine ⟨rfl, ?_, ?_, ?_, ?_, ?_, ?_⟩
  · intro h
    exact min_integer_size_small integer_digits (by omega) hd
  · exact min_integer_size_seventeen
  · intro h
    simp [clamped_integer_part, h]
  · intro h
    have hnotmax : ¬ ((max_integer_size integer_digits : ℚ) < number) := by
      intro hc
      have h1 : (0:ℚ) ≤ number := le_trans hmaxQ hc.le
      have h2 : number < 0 := lt_of_lt_of_le h hminle
      linarith
    simp [clamped_integer_part, h, hnotmax]
  · exact hbounds.1
  · exact hbounds.2

/-- C3 witness: instantiation at `integer_digits = 2`,
`decimal_digits = 1` and the binary64 value of `123.45`. -/
theorem c3_witness :
    max_integer_size 2 = 10 ^ 2 - 1 ∧
    (2 ≤ 16 → min_integer_size 2 = -((10 ^ 2 - 1) / 10)) ∧
    min_integer_size 17 = -(10 ^ 16) ∧
    ((max_integer_size 2 : ℚ) < 8687021468732621/70368744177664 →
      clamped_integer_part (8687021468732621/70368744177664) 2 = max_integer_size 2) ∧
    ((8687021468732621/70368744177664 : ℚ) < (min_integer_size 2 : ℚ) →
      clamped_integer_part (8687021468732621/70368744177664) 2 = min_integer_size 2) ∧
    roundHalfEven ((|(8687021468732621/70368744177664 : ℚ)| -
        |((pyInt (8687021468732621/70368744177664) : ℤ) : ℚ)|) * 10 ^ 1) - 1
      ≤ decimal_int (8687021468732621/70368744177664) 1 ∧
    decimal_int (8687021468732621/70368744177664) 1
      ≤ roundHalfEven ((|(8687021468732621/70368744177664 : ℚ)| -
          |((pyInt (8687021468732621/70368744177664) : ℤ) : ℚ)|) * 10 ^ 1) :=
  c3_clamping_extremes_binary64 2 1 (by norm_num) (by norm_num)
    (8687021468732621/70368744177664)

/-- Helper for C10: the floor of a quotient of natural number casts is
natural division. -/
lemma floor_natCast_div (a b : Nat) : ⌊(a : ℚ) / (b : ℚ)⌋ = ((a / b : ℕ) : ℤ) := by
  have h := Rat.floor_natCast_div_natCast a b
  simpa using h

/-- Helper for C10: the hours component computed by `get_uptime` is the
natural number `s / 3600`. -/
lemma uptime_hours (s : Nat) :
    pyInt ((s : ℚ) / 60 / 60) = ((s / 3600 : ℕ) : ℤ) := by
  rw [div_div]
  norm_num
  rw [pyInt_of_nonneg (by positivity)]
  exact floor_natCast_div s 3600

/-- Helper for C10: the minutes component computed by `get_uptime` is
the natural number `s / 60 % 60`. -/
lemma uptime_minutes (s : Nat) :
    pyInt ((s : ℚ) / 60 - (((s / 3600 : ℕ) : ℤ) : ℚ) * 60) =
      ((s / 60 % 60 : ℕ) : ℤ) := by
  have hdd : s / 3600 = s / 60 / 60 := by omega
  have h1 : ((s / 60 : ℕ) : ℚ) ≤ (s : ℚ) / 60 := Nat.cast_div_le
  have h2 : ((s / 60 / 60 : ℕ) * 60 : ℚ) ≤ ((s / 60 : ℕ) : ℚ) := by
    exact_mod_cast Nat.cast_le.mpr (Nat.div_mul_le_self (s / 60) 60)
  have hcast : ((((s / 3600 : ℕ) : ℤ) : ℚ)) = ((s / 3600 : ℕ) : ℚ) :=
    Int.cast_natCast _
  have hnn : (0:ℚ) ≤ (s : ℚ) / 60 - (((s / 3600 : ℕ) : ℤ) : ℚ) * 60 := by
    rw [hcast, hdd]
    linarith
  rw [pyInt_of_nonneg hnn]
  have hsub : ((((s / 3600 : ℕ) : ℤ) : ℚ) * 60) = ((((s / 3600 : ℕ) : ℤ) * 60 : ℤ) : ℚ) := by
    push_cast
    ring
  have hfl : ⌊(s : ℚ) / 60⌋ = ((s / 60 : ℕ) : ℤ) := floor_natCast_div s 60
  rw [hsub, Int.floor_sub_int, hfl]
  omega

/-- Helper for C10: the second uptime row, written with the day, hour
and minute components as natural numbers. -/
lemma get_uptime_row2_eq (n : Nat) :
    (get_uptime n).2 =
      rjust (Nat.repr (n / 86400)) 4 ' ' ++ " d " ++
        rjust (Nat.repr (n % 86400 / 3600)) 2 ' ' ++ " h " ++
        rjust (Nat.repr (n % 86400 / 60 % 60)) 2 ' ' ++ " m" := by
  simp only [get_uptime, uptime_hours, uptime_minutes, intRepr_ofNat]

/-- Helper for C10: the length of the second uptime row is 12 plus the
width of the day field, which is at least 4. -/
lemma uptime_row2_length (n : Nat) :
    (get_uptime n).2.length = max 4 (Nat.repr (n / 86400)).length + 12 := by
  rw [get_uptime_row2_eq]
  have hh : n % 86400 / 3600 < 10 ^ 2 := by omega
  have hm : n % 86400 / 60 % 60 < 10 ^ 2 := by omega
  have h2 : (Nat.repr (n % 86400 / 3600)).length ≤ 2 :=
    (natRepr_length_le_iff _ 2 (by norm_num)).mpr hh
  have h3 : (Nat.repr (n % 86400 / 60 % 60)).length ≤ 2 :=
    (natRepr_length_le_iff _ 2 (by norm_num)).mpr hm
  have hd : (" d " : String).length = 3 := rfl
  have hhs : (" h " : String).length = 3 := rfl
  have hms : (" m" : String).length = 2 := rfl
  simp only [String.length_append, rjust_length, hd, hhs, hms]
  omega

/-- C10: for every non-negative elapsed time since boot, the second row
of the uptime frame is exactly 16 characters iff the whole-days
component is at most 9999; with 10000 or more days the row exceeds 16
characters (the hours and minutes fields always render in exactly 2
characters, but the day field is right-justified to a minimum of 4
characters without truncation). -/
theorem c10_uptime_row_width (elapsed_seconds : Nat) :
    ((get_uptime elapsed_seconds).2.length = 16 ↔
      elapsed_seconds / 86400 ≤ 9999) ∧
    (9999 < elapsed_seconds / 86400 →
      16 < (get_uptime elapsed_seconds).2.length) := by
  have hlen := uptime_row2_length elapsed_seconds
  have hle := natRepr_length_le_iff (elapsed_seconds / 86400) 4 (by norm_num)
  have hp : (10:ℕ) ^ 4 = 10000 := by norm_num
  rw [hp] at hle
  constructor
  · rw [hlen]
    constructor
    · intro h16
      have h4 : (Nat.repr (elapsed_seconds / 86400)).length ≤ 4 := by omega
      have := hle.mp h4
      omega
    · intro h
      have := hle.mpr (by omega)
      omega
  · intro h
    rw [hlen]
    have h4 : ¬ (Nat.repr (elapsed_seconds / 86400)).length ≤ 4 := by
      intro hc
      have := hle.mp hc
      omega
    omega
